import Mathlib

/- Shallow embedding of the dnspython core modules (dns/rcode.py, dns/ttl.py,
   dns/name.py, dns/renderer.py, dns/resolver.py, dns/xfr.py) together with
   proofs about them.  Python machine-level details are modelled explicitly:
   Python integers are unbounded, so `Nat` is used where the source only ever
   holds non-negative values; fallible code returns `Except`/`Option`. -/

set_option maxHeartbeats 2000000

namespace rcode

/-- Surrogate for Python's `ValueError`. -/
inductive PyError where
  | valueError
deriving DecidableEq

/-- The declared members of `dns.rcode.Rcode` (an `IntEnum`):
NOERROR..DSOTYPENI are 0..11, BADVERS/BADSIG share 16, and BADKEY..BADCOOKIE
are 17..23. -/
def rcodeMembers : List Nat := [0, 1, 2, 3, 4, 5, 6, 7, 8, 9, 10, 11, 16, 17, 18, 19, 20, 21, 22, 23]

/-- Python `Rcode(value)`: construction of an `enum.IntEnum` succeeds only for
declared members; any other value raises `ValueError` (neither `dns.enum.IntEnum`
nor `Rcode` defines `_missing_`). -/
def Rcode.ofInt (v : Nat) : Except PyError Nat :=
  if v ∈ rcodeMembers then Except.ok v else Except.error PyError.valueError

/-- `dns.rcode.from_flags`: computes
`rcode = (flags & 0x000f) | ((ednsflags >> 20) & 0xff0)`, and if the result is
in `[0, 4095]` returns `Rcode(rcode)`, else raises `ValueError`.  Inputs are
taken as naturals (the DNS flags fields are non-negative). -/
def from_flags (flags ednsflags : Nat) : Except PyError Nat :=
  let rc := (flags &&& 0xf) ||| ((ednsflags >>> 20) &&& 0xff0)
  if rc ≤ 4095 then Rcode.ofInt rc else Except.error PyError.valueError

/-- `dns.rcode.to_flags`: if `value` is in `[0, 4095]` returns the pair
`(value & 0x000f, (value & 0xff0) << 20)`, else raises `ValueError`. -/
def to_flags (value : Nat) : Except PyError (Nat × Nat) :=
  if value ≤ 4095 then Except.ok (value &&& 0xf, (value &&& 0xff0) <<< 20)
  else Except.error PyError.valueError

end rcode

namespace ttl

/-- Surrogate for `dns.ttl.BadTTL`. -/
inductive TtlError where
  | badTTL
deriving DecidableEq

/-- `dns.ttl.MAX_TTL = 2 ** 32 - 1`. -/
def MAX_TTL : Nat := 2 ^ 32 - 1

/-- Seconds multiplier of a unit character, mirroring the `w`/`d`/`h`/`m`/`s`
branches of `dns.ttl.from_text`; `none` for any other letter (which the source
rejects with `BadTTL`). -/
def unitSeconds (c : Char) : Option Nat :=
  if c = 'w' then some (7 * 24 * 3600)
  else if c = 'd' then some (24 * 3600)
  else if c = 'h' then some 3600
  else if c = 'm' then some 60
  else if c = 's' then some 1
  else none

/-- Numeric value of an ASCII digit character. -/
def digitVal (c : Char) : Nat := c.toNat - 48

/-- The character loop of `dns.ttl.from_text`.  `total` models `total_seconds`;
`acc` models the `value` string (`none` when `value` is empty, `some v` when it
holds the digits of `v`).  After the loop the source adds any trailing bare
integer and rejects results above `MAX_TTL`.  For the ASCII inputs concerned,
`Char.isDigit`/`Char.isAlpha` agree with Python's `str.isdigit`/`str.isalpha`. -/
def fromTextLoop : List Char → Nat → Option Nat → Except TtlError Nat
  | [], total, none =>
      if total > MAX_TTL then Except.error TtlError.badTTL else Except.ok total
  | [], total, some v =>
      if total + v > MAX_TTL then Except.error TtlError.badTTL else Except.ok (total + v)
  | c :: rest, total, acc =>
      if c.isDigit then fromTextLoop rest total (some ((acc.getD 0) * 10 + digitVal c))
      else if c.isAlpha then
        match acc with
        | none => Except.error TtlError.badTTL
        | some v =>
          match unitSeconds c with
          | some m => fromTextLoop rest (total + v * m) none
          | none => Except.error TtlError.badTTL
      else Except.error TtlError.badTTL

/-- `dns.ttl.from_text` on a list of characters: empty input raises `BadTTL`,
otherwise the character loop runs from `total_seconds = 0` with an empty
`value`. -/
def from_text (text : List Char) : Except TtlError Nat :=
  if text = [] then Except.error TtlError.badTTL else fromTextLoop text 0 none

end ttl

namespace name

/-- A DNS label: a list of byte values (Python `bytes`). -/
abbrev Label := List Nat

/-- Surrogates for the validation exceptions of `dns.name`. -/
inductive NameError where
  | nameTooLong
  | labelTooLong
  | emptyLabel
deriving DecidableEq

/-- The `for i, label in enumerate(labels)` loop of `_validate_labels`:
in source order, a label longer than 63 octets raises `LabelTooLong`, and an
empty label at an index other than the last raises `EmptyLabel`.  `n` is the
total number of labels; `i` the current index. -/
def checkLabels (n : Nat) : Nat → List Label → Option NameError
  | _, [] => none
  | i, l :: rest =>
    if l.length > 63 then some NameError.labelTooLong
    else if l.length = 0 ∧ i ≠ n - 1 then some NameError.emptyLabel
    else checkLabels n (i + 1) rest

/-- `dns.name._validate_labels`: first rejects a total encoded length
`sum (len(label) + 1)` above 255 with `NameTooLong`, then runs the per-label
loop.  Returns `none` when validation passes. -/
def _validate_labels (labels : List Label) : Option NameError :=
  if (labels.map (fun l => l.length + 1)).sum > 255 then some NameError.nameTooLong
  else checkLabels labels.length 0 labels

/-- `dns.name.Name`: an immutable sequence of labels. -/
structure Name where
  labels : List Label
deriving DecidableEq

/-- `Name.__init__`: store the labels as a tuple and validate them; a
validation failure propagates as the corresponding exception. -/
def Name.mk? (labels : List Label) : Except NameError Name :=
  match _validate_labels labels with
  | some e => Except.error e
  | none => Except.ok ⟨labels⟩

/-- ASCII lowercasing of one byte, as `bytes.lower` does per byte. -/
def lowerByte (c : Nat) : Nat := if 65 ≤ c ∧ c ≤ 90 then c + 32 else c

/-- One step of the hash accumulation in `Name.__hash__`:
`h += (h << 3) + c` (Python integers are unbounded, hence `Nat`). -/
def hashStep (h c : Nat) : Nat := h + ((h <<< 3) + c)

/-- The inner `for c in label.lower()` loop of `Name.__hash__`. -/
def hashLabel (h : Nat) (l : Label) : Nat := (l.map lowerByte).foldl hashStep h

/-- `dns.name.Name.__hash__`: fold `hashStep` over the lowercased bytes of all
labels, starting from 0. -/
def Name.hashValue (n : Name) : Nat := n.labels.foldl hashLabel 0

/-- `dns.name.root = Name([b''])`. -/
def root : Name := ⟨[[]]⟩

/-- `dns.name.empty = Name([])`. -/
def empty : Name := ⟨[]⟩

end name

namespace renderer

/-- Section constants of `dns.renderer`. -/
def QUESTION : Nat := 0

/-- ANSWER section constant. -/
def ANSWER : Nat := 1

/-- AUTHORITY section constant. -/
def AUTHORITY : Nat := 2

/-- ADDITIONAL section constant. -/
def ADDITIONAL : Nat := 3

/-- Surrogate for `dns.exception.FormError`. -/
inductive FormError where
  | formError
deriving DecidableEq

/-- Model of `io.BytesIO`: a byte buffer plus a stream position. -/
structure BytesIO where
  buf : List Nat
  pos : Nat
deriving DecidableEq

/-- `BytesIO.seek(w)`: move the stream position to `w`. -/
def BytesIO.seek (b : BytesIO) (w : Nat) : BytesIO := { b with pos := w }

/-- `BytesIO.truncate()` with no argument: cut the buffer at the current
stream position. -/
def BytesIO.truncate (b : BytesIO) : BytesIO := { b with buf := b.buf.take b.pos }

/-- The fields of `dns.renderer.Renderer` that the section-ordering and
rollback logic reads or writes; `sectionNum` models `self.section`. -/
structure Renderer where
  output : BytesIO
  compress : List (name.Name × Nat)
  sectionNum : Nat
  counts : List Nat
deriving DecidableEq

/-- `Renderer._set_section`: a no-op when the requested section equals the
current one; advances when the requested section is greater; raises
`FormError` (before any state change) when it is smaller. -/
def _set_section (r : Renderer) (s : Nat) : Except FormError Renderer :=
  if r.sectionNum ≠ s then
    if r.sectionNum < s then Except.ok { r with sectionNum := s }
    else Except.error FormError.formError
  else Except.ok r

/-- The deletion loop of `Renderer._rollback`: walk the compression-table
entries in order and delete every entry whose offset is at least `w`. -/
def delEntries (w : Nat) : List (name.Name × Nat) → List (name.Name × Nat)
  | [] => []
  | kv :: rest => if kv.2 ≥ w then delEntries w rest else kv :: delEntries w rest

/-- `Renderer._rollback(where)`: seek to `where`, truncate the buffer there,
and purge all compression entries at offsets `≥ where`. -/
def _rollback (r : Renderer) (w : Nat) : Renderer :=
  { r with output := (r.output.seek w).truncate,
           compress := delEntries w r.compress }

end renderer

namespace resolver

/-- The fields of `dns.resolver.Answer` that the cache logic reads: the
absolute wall-clock `expiration` (receive time plus minimum TTL) and an
identifying payload standing for the response contents.  Wall-clock time is
modelled as natural ticks. -/
structure Answer where
  expiration : Nat
  payload : Nat
deriving DecidableEq

/-- `dns.resolver.CacheStatistics`. -/
structure CacheStatistics where
  hits : Nat
  misses : Nat
deriving DecidableEq

/-- Cache keys: the `(name, rdtype, rdclass)` triple, abstracted to a single
value compared by equality. -/
abbrev CacheKey := Nat

/-- `dns.resolver.Cache`: the data dict (an insertion-ordered association
list with unique keys, as a Python dict is), the cleaning interval, the next
cleaning time, and the statistics inherited from `CacheBase`. -/
structure Cache where
  data : List (CacheKey × Answer)
  cleaning_interval : Nat
  next_cleaning : Nat
  statistics : CacheStatistics
deriving DecidableEq

/-- Python `dict.get(key)` on an association list: first match wins. -/
def dictGet (k : CacheKey) : List (CacheKey × Answer) → Option Answer
  | [] => none
  | (k2, v) :: rest => if k2 = k then some v else dictGet k rest

/-- Python `dict[k] = v`: replace in place when the key is present, else
append at the end. -/
def dictInsert (k : CacheKey) (v : Answer) :
    List (CacheKey × Answer) → List (CacheKey × Answer)
  | [] => [(k, v)]
  | (k2, v2) :: rest =>
    if k2 = k then (k, v) :: rest else (k2, v2) :: dictInsert k v rest

/-- `Cache._maybe_clean` at wall-clock `now`: when `next_cleaning ≤ now`,
delete every entry whose `expiration ≤ now` and schedule the next cleaning
at `now + cleaning_interval`. -/
def Cache._maybe_clean (c : Cache) (now : Nat) : Cache :=
  if c.next_cleaning ≤ now then
    { c with data := c.data.filter (fun kv => decide (now < kv.2.expiration)),
             next_cleaning := now + c.cleaning_interval }
  else c

/-- The body of `Cache.get` after `_maybe_clean` has run: return the entry
only if present with `expiration > now`, counting a hit; otherwise count a
miss and return nothing (a missing key is a normal miss, never an error). -/
def Cache.getAfterClean (c2 : Cache) (key : CacheKey) (now : Nat) :
    Option Answer × Cache :=
  match dictGet key c2.data with
  | some answer =>
    if now < answer.expiration then
      (some answer,
       { c2 with statistics := { c2.statistics with hits := c2.statistics.hits + 1 } })
    else
      (none,
       { c2 with statistics := { c2.statistics with misses := c2.statistics.misses + 1 } })
  | none =>
      (none,
       { c2 with statistics := { c2.statistics with misses := c2.statistics.misses + 1 } })

/-- `Cache.get` at wall-clock `now`: clean if due, then look the key up. -/
def Cache.get (c : Cache) (key : CacheKey) (now : Nat) : Option Answer × Cache :=
  Cache.getAfterClean (c._maybe_clean now) key now

/-- `Cache.put` at wall-clock `now`: clean if due, then store the value
under the key. -/
def Cache.put (c : Cache) (key : CacheKey) (value : Answer) (now : Nat) : Cache :=
  { c._maybe_clean now with data := dictInsert key value (c._maybe_clean now).data }

/-- `dns.resolver.LRUCacheNode`: key, value, and the per-entry hit counter.
The intrusive `prev`/`next` pointers are represented by the node's position
in the cache's node list. -/
structure LRUCacheNode where
  key : CacheKey
  value : Answer
  hits : Nat
deriving DecidableEq

/-- `dns.resolver.LRUCache`: the backing dict and the sentinel ring share
their nodes, so both are modelled by one list of nodes ordered
most-recently-used first, together with the bound and the statistics. -/
structure LRUCache where
  nodes : List LRUCacheNode
  max_size : Nat
  statistics : CacheStatistics
deriving DecidableEq

/-- Modelled from the spec: the linked-list helpers `_move_to_front` and
`_add_front` of `LRUCache` are not present in the source tree; per the spec
("`get` on hit moves the node to the front", "`put` replaces an existing
node (moving to front)"), moving a node to the front is modelled as removing
its key from the list and consing the node in front. -/
def moveToFront (nodes : List LRUCacheNode) (node : LRUCacheNode) : List LRUCacheNode :=
  node :: nodes.filter (fun n2 => decide (n2.key ≠ node.key))

/-- Modelled from the spec: the `_remove_least_recently_used` helper is not
present in the source tree; per the spec it evicts tail (least recently
used) nodes, here: drop from the back until below `max_size`.  `fuel` bounds
the `while` loop. -/
def evictLoop : Nat → Nat → List LRUCacheNode → List LRUCacheNode
  | 0, _, nodes => nodes
  | fuel + 1, max_size, nodes =>
    if max_size ≤ nodes.length then evictLoop fuel max_size nodes.dropLast else nodes

/-- The node-lookup `self.data.get(key)`, by key. -/
def findNode (nodes : List LRUCacheNode) (k : CacheKey) : Option LRUCacheNode :=
  nodes.find? (fun n => decide (n.key = k))

/-- `LRUCache.get` at wall-clock `now`: a missing key is a miss; an expired
node is deleted and counted as a miss; otherwise the node's per-entry `hits`
is incremented, the node moves to the front, the cache-wide hit counter is
incremented, and the value is returned. -/
def LRUCache.get (c : LRUCache) (k : CacheKey) (now : Nat) : Option Answer × LRUCache :=
  match findNode c.nodes k with
  | none =>
      (none,
       { c with statistics := { c.statistics with misses := c.statistics.misses + 1 } })
  | some node =>
    if node.value.expiration ≤ now then
      (none,
       { c with nodes := c.nodes.filter (fun n2 => decide (n2.key ≠ k)),
                statistics := { c.statistics with misses := c.statistics.misses + 1 } })
    else
      (some node.value,
       { c with nodes := moveToFront c.nodes { node with hits := node.hits + 1 },
                statistics := { c.statistics with hits := c.statistics.hits + 1 } })

/-- `LRUCache.get_hits_for_key`: 0 for an absent key, else the node's hit
counter. -/
def LRUCache.get_hits_for_key (c : LRUCache) (k : CacheKey) : Nat :=
  match findNode c.nodes k with
  | none => 0
  | some node => node.hits

/-- `LRUCache.put`: when the key is present, the node's value is replaced,
its `hits` counter is incremented, and the node moves to the front;
otherwise least-recently-used nodes are evicted until there is room and a
fresh node (with `hits = 0`) is added at the front. -/
def LRUCache.put (c : LRUCache) (k : CacheKey) (v : Answer) : LRUCache :=
  match findNode c.nodes k with
  | some node =>
      { c with nodes := moveToFront c.nodes { node with value := v, hits := node.hits + 1 } }
  | none =>
      { c with nodes :=
          { key := k, value := v, hits := 0 }
            :: evictLoop (c.nodes.length + 1) c.max_size c.nodes }

/-- `dns.rcode.NOERROR`. -/
def NOERROR : Nat := 0

/-- `dns.rcode.NXDOMAIN`. -/
def NXDOMAIN : Nat := 3

/-- Result of one `try` block of the inner server loop of
`Resolver.resolve` — one `dns.query.udp`/`tcp` dispatch including the
source's internal TC-truncation retry: the transport either raises
`dns.exception.Timeout`, raises some other exception, or yields a response
with the given rcode; `rid` identifies the response object. -/
inductive TryResult where
  | timeout
  | failure (code : Nat)
  | response (rcode : Nat) (rid : Nat)
deriving DecidableEq

/-- Environment of a resolve call: `result i` is the outcome of the `i`-th
try block, and `elapsed i` the value of `time.time() - start` when the
lifetime check following the `i`-th try block runs.  This abstracts the
external transport and the wall clock, which are outside the source. -/
structure Trace where
  result : Nat → TryResult
  elapsed : Nat → Nat

/-- One entry of `resolution.errors`: the nameserver together with either
the string `timed out` or the other exception (as a code). -/
inductive ErrEntry where
  | timedOut (server : Nat)
  | failed (server : Nat) (code : Nat)
deriving DecidableEq

/-- `Resolver._get_next_nameserver`: with `rotate`, pop the head and append
it; otherwise use the head.  Nameservers are identified by naturals; the
head of an empty list is modelled as server 0 (a configured resolver always
has at least one). -/
def nextNameserver (rotate : Bool) (nss : List Nat) : Nat × List Nat :=
  if rotate then (nss.headD 0, nss.tail ++ [nss.headD 0]) else (nss.headD 0, nss)

/-- Outcome of the `while not done` server loop of `Resolver.resolve`:
either `LifetimeTimeout` is raised with the collected error trace, or a
terminal (NOERROR/NXDOMAIN) response is obtained, or the iteration budget
`fuel` ran out with the loop still running. -/
inductive InnerResult where
  | raiseLifetime (errors : List ErrEntry)
  | gotResponse (rcode : Nat) (rid : Nat) (i : Nat) (nss : List Nat) (errors : List ErrEntry)
  | fuelOut (errors : List ErrEntry)
deriving DecidableEq

/-- The `while not done` loop of `Resolver.resolve` (resolver.py lines
754-773), run for at most `fuel` iterations.  Each iteration picks the next
nameserver and dispatches.  A `Timeout` or any other exception appends to
the error trace and `continue`s — skipping the elapsed-time check at the
bottom of the loop body — while a response does reach that check: if
`elapsed > lifetime` then `LifetimeTimeout` is raised (even for a terminal
response), otherwise a NOERROR/NXDOMAIN response leaves the loop and any
other rcode iterates again. -/
def innerLoop (tr : Trace) (rotate : Bool) (lifetime : Nat) :
    Nat → Nat → List Nat → List ErrEntry → InnerResult
  | 0, _, _, errors => InnerResult.fuelOut errors
  | fuel + 1, i, nss, errors =>
    match tr.result i with
    | TryResult.timeout =>
        innerLoop tr rotate lifetime fuel (i + 1) (nextNameserver rotate nss).2
          (errors ++ [ErrEntry.timedOut (nextNameserver rotate nss).1])
    | TryResult.failure code =>
        innerLoop tr rotate lifetime fuel (i + 1) (nextNameserver rotate nss).2
          (errors ++ [ErrEntry.failed (nextNameserver rotate nss).1 code])
    | TryResult.response rc rid =>
        if tr.elapsed i > lifetime then InnerResult.raiseLifetime errors
        else if rc = NOERROR ∨ rc = NXDOMAIN then
          InnerResult.gotResponse rc rid (i + 1) (nextNameserver rotate nss).2 errors
        else innerLoop tr rotate lifetime fuel (i + 1) (nextNameserver rotate nss).2 errors

/-- A cached entry as `_Resolution.next_request` inspects it: `isNx` models
`answer.rrset is None and answer.response.rcode() == dns.rcode.NXDOMAIN`;
`rid` identifies `answer.response`; `payload` the answer itself. -/
structure CacheView where
  isNx : Bool
  rid : Nat
  payload : Nat
deriving DecidableEq

/-- `_Resolution` state: the planned candidate list `qnames_to_try`, the
working copy `qnames` consumed from the front, the field `self.qname`
(initialised to `dns.name.empty` and never reassigned by `next_request`),
and the NXDOMAIN response dict keyed by name. -/
structure Resolution where
  qnames_to_try : List name.Name
  qnames : List name.Name
  qname : name.Name
  nxdomain_responses : List (name.Name × Nat)
deriving DecidableEq

/-- `_Resolution.__init__` once search-list planning produced the candidate
list `cs`: `qnames` starts as a copy of `qnames_to_try`. -/
def Resolution.init (cs : List name.Name) : Resolution :=
  { qnames_to_try := cs, qnames := cs, qname := name.empty, nxdomain_responses := [] }

/-- Python `dict[k] = v` on the name-keyed NXDOMAIN response dict. -/
def respInsert (k : name.Name) (v : Nat) :
    List (name.Name × Nat) → List (name.Name × Nat)
  | [] => [(k, v)]
  | (k2, v2) :: rest =>
    if k2 = k then (k, v) :: rest else (k2, v2) :: respInsert k v rest

/-- What `next_request` hands back to the resolve loop: at most one of
request and answer, or exhaustion of the candidates. -/
inductive NextReq where
  | request (q : name.Name)
  | answer (payload : Nat)
  | exhausted
deriving DecidableEq

/-- `_Resolution.next_request`: pop candidates off `self.qnames`; a cache
hit encoding NXDOMAIN is recorded under the popped local `qname` (the field
`self.qname` is not assigned) and the loop continues; a normal cache hit is
returned as the answer; a cache miss builds the request for the popped name.
With the candidates exhausted, `(None, None)` is returned. -/
def next_request (cacheGet : name.Name → Option CacheView) :
    List name.Name → Resolution → Resolution × NextReq
  | [], st => ({ st with qnames := [] }, NextReq.exhausted)
  | q :: rest, st =>
    match cacheGet q with
    | some entry =>
      if entry.isNx then
        next_request cacheGet rest
          { st with qnames := rest,
                    nxdomain_responses := respInsert q entry.rid st.nxdomain_responses }
      else ({ st with qnames := rest }, NextReq.answer entry.payload)
    | none => ({ st with qnames := rest }, NextReq.request q)

/-- Outcome of `Resolver.resolve`. -/
inductive ResolveResult where
  | answered (payload : Nat)
  | answeredFromServer (rc : Nat) (rid : Nat)
  | nxdomain (qnames : List name.Name) (responses : List (name.Name × Nat))
  | lifetimeTimeout (errors : List ErrEntry)
  | fuelOut
deriving DecidableEq

/-- The outer `while True` loop of `Resolver.resolve` (resolver.py lines
748-779), run for at most `fuel` outer iterations, with `innerFuel` bounding
each inner server loop.  On candidate exhaustion it raises
`NXDOMAIN(qnames=resolution.qnames, responses=resolution.nxdomain_responses)`
— reading the by-then emptied working list `resolution.qnames`.  A server
NXDOMAIN response is recorded under `resolution.qname`, which `next_request`
never reassigned; any other terminal response is returned as the answer. -/
def resolveLoop (tr : Trace) (rotate : Bool) (lifetime : Nat)
    (cacheGet : name.Name → Option CacheView) (innerFuel : Nat) :
    Nat → Nat → List Nat → List ErrEntry → Resolution → ResolveResult
  | 0, _, _, _, _ => ResolveResult.fuelOut
  | fuel + 1, i, nss, errors, st =>
    match next_request cacheGet st.qnames st with
    | (_, NextReq.answer p) => ResolveResult.answered p
    | (st2, NextReq.exhausted) =>
        ResolveResult.nxdomain st2.qnames st2.nxdomain_responses
    | (st2, NextReq.request _) =>
      match innerLoop tr rotate lifetime innerFuel i nss errors with
      | InnerResult.raiseLifetime errs => ResolveResult.lifetimeTimeout errs
      | InnerResult.fuelOut _ => ResolveResult.fuelOut
      | InnerResult.gotResponse rc rid i2 nss2 errs =>
        if rc = NXDOMAIN then
          resolveLoop tr rotate lifetime cacheGet innerFuel fuel i2 nss2 errs
            { st2 with nxdomain_responses :=
                respInsert st2.qname rid st2.nxdomain_responses }
        else ResolveResult.answeredFromServer rc rid

end resolver

namespace xfr

/-- `dns.rdatatype.SOA`. -/
def SOA : Nat := 6

/-- An answer-section RRset as the IXFR logic consumes it: its rdtype, the
SOA serial of its first rdata (meaningful when `rdtype = SOA`), and an
identifier standing for the remaining rdata contents, so that the
`rrset == self.soa_rdataset` comparison is decidable in the model. -/
structure RRset where
  rdtype : Nat
  serial : Nat
  rid : Nat
deriving DecidableEq

/-- Operations issued to the transaction writer, in order. -/
inductive TxnOp where
  | add (r : RRset)
  | delete (r : RRset)
  | commit
deriving DecidableEq

/-- Modelled from the spec: the module `dns.serial` is not part of the
source tree.  RFC 1982 32-bit serial-arithmetic strict comparison as
performed by `dns.serial.Serial`: `a < b` when either `a < b` with
difference below `2^31`, or `a > b` with difference above `2^31`. -/
def serialLt (a b : Nat) : Bool :=
  (decide (a < b) && decide (b - a < 2 ^ 31)) || (decide (b < a) && decide (a - b > 2 ^ 31))

/-- Modelled from the spec: serial-arithmetic `≤` is equality or strict
serial order. -/
def serialLe (a b : Nat) : Bool := decide (a = b) || serialLt a b

/-- The `dns.xfr.Inbound` state that the IXFR logic manipulates: the base
`serial`, the opening SOA once seen, the `done` and `delete_mode` flags,
whether `txn_manager.writer()` has been called, and the trace of operations
issued to the transaction. -/
structure Inbound where
  serial : Nat
  soa_rdataset : Option RRset
  done : Bool
  delete_mode : Bool
  txnOpen : Bool
  txnOps : List TxnOp
deriving DecidableEq

/-- `Inbound.__init__` for an IXFR with base serial `s`. -/
def Inbound.init (s : Nat) : Inbound :=
  { serial := s, soa_rdataset := none, done := false, delete_mode := false,
    txnOpen := false, txnOps := [] }

/-- The `for rrset in message.answer` loop of
`Inbound._process_ixfr_message`: the first SOA is stored as the opening SOA
and, when its serial is `≤` the base serial in serial arithmetic, the
transfer is immediately done (no commit); a later SOA equal to the opening
SOA commits and finishes; any other SOA toggles `delete_mode`; non-SOA
RRsets are deleted or added according to `delete_mode`. -/
def processIxfrLoop : Inbound → List RRset → Inbound × Bool
  | st, [] => (st, false)
  | st, rrset :: rest =>
    if rrset.rdtype = SOA then
      match st.soa_rdataset with
      | none =>
        if serialLe rrset.serial st.serial then
          ({ st with soa_rdataset := some rrset, done := true }, true)
        else processIxfrLoop { st with soa_rdataset := some rrset } rest
      | some soa =>
        if rrset = soa then
          ({ st with txnOps := st.txnOps ++ [TxnOp.commit], done := true }, true)
        else processIxfrLoop { st with delete_mode := ! st.delete_mode } rest
    else
      if st.delete_mode then
        processIxfrLoop { st with txnOps := st.txnOps ++ [TxnOp.delete rrset] } rest
      else
        processIxfrLoop { st with txnOps := st.txnOps ++ [TxnOp.add rrset] } rest

/-- `Inbound.process_message` for an `Inbound` created with
`rdtype = IXFR`: open the transaction writer if not yet open, then dispatch
to the IXFR answer loop.  Returns the updated state and whether the
transfer is complete. -/
def Inbound.process_message (st : Inbound) (answer : List RRset) : Inbound × Bool :=
  if st.txnOpen then processIxfrLoop st answer
  else processIxfrLoop { st with txnOpen := true } answer

end xfr

/-- C3: the claim asserts that for every `r ∈ [0, 4095]`, `to_flags r` succeeds
and `from_flags` on the resulting pair returns `r`, with neither function
raising.  The code violates this: `to_flags 12` succeeds with `(12, 0)` but
`from_flags 12 0` raises `ValueError`, because `from_flags` finishes with
`Rcode(rcode)` and `12` is not a declared `Rcode` member.  On the declared
members the round-trip does hold, as the final conjunct records. -/
theorem C3_rcode_roundtrip_fails_at_12 :
    rcode.to_flags 12 = Except.ok (12, 0) ∧
    rcode.from_flags 12 0 = Except.error rcode.PyError.valueError ∧
    (rcode.rcodeMembers.all fun r =>
      match rcode.to_flags r with
      | Except.ok (f, e) =>
        match rcode.from_flags f e with
        | Except.ok r2 => r2 == r
        | Except.error _ => false
      | Except.error _ => false) = true :=
  ⟨rfl, rfl, by decide⟩

/-- C4 counterexample: the claim (following the spec scenario) asserts
`from_text '1w2d3h' = 777600`, but the code computes
`1*604800 + 2*86400 + 3*3600 = 788400`, which also matches the spec's own unit
table (`Nw` ×604800, `Nd` ×86400, `Nh` ×3600). -/
theorem C4_ttl_counterexample :
    ttl.from_text [ '1', 'w', '2', 'd', '3', 'h' ] ≠ Except.ok 777600 := by
  have h : ttl.from_text [ '1', 'w', '2', 'd', '3', 'h' ] = Except.ok 788400 := rfl
  rw [h]
  intro hc
  exact absurd (Except.ok.inj hc) (by decide)

/-- C4 (amended): `from_text '1w2d3h' = 788400` (per the unit table),
`from_text '5m' = 300`, `from_text '86400' = 86400`, and `from_text '1x'`
raises `BadTTL`. -/
theorem C4_ttl_amended :
    ttl.from_text [ '1', 'w', '2', 'd', '3', 'h' ] = Except.ok 788400 ∧
    ttl.from_text [ '5', 'm' ] = Except.ok 300 ∧
    ttl.from_text [ '8', '6', '4', '0', '0' ] = Except.ok 86400 ∧
    ttl.from_text [ '1', 'x' ] = Except.error ttl.TtlError.badTTL :=
  ⟨rfl, rfl, rfl, rfl⟩

/-- When the per-label validation loop passes, every label is at most 63
octets long and an empty label can only sit at (absolute) index `n - 1`. -/
theorem checkLabels_ok {n : Nat} :
    ∀ (ls : List name.Label) (i : Nat), name.checkLabels n i ls = none →
      ∀ j, ∀ hj : j < ls.length,
        (ls.get ⟨j, hj⟩).length ≤ 63 ∧ (ls.get ⟨j, hj⟩ = [] → i + j = n - 1) := by
  intro ls
  induction ls with
  | nil =>
    intro i _ j hj
    exact absurd hj (by simp)
  | cons l rest ih =>
    intro i h j hj
    simp only [name.checkLabels] at h
    by_cases h1 : l.length > 63
    · simp [h1] at h
    · by_cases h2 : l.length = 0 ∧ i ≠ n - 1
      · simp [h1, h2] at h
      · rw [if_neg h1, if_neg h2] at h
        match j with
        | 0 =>
          refine ⟨Nat.le_of_not_lt h1, fun he => ?_⟩
          have hl : l = [] := he
          by_contra hne
          exact h2 ⟨by simp [hl], by omega⟩
        | j + 1 =>
          have hj2 : j < rest.length := by simpa using Nat.lt_of_succ_lt_succ hj
          obtain ⟨ha, hb⟩ := ih (i + 1) h j hj2
          refine ⟨ha, fun he => ?_⟩
          have := hb he
          omega

/-- Converse of `checkLabels_ok`: if every label is short enough and empties
appear only at absolute index `n - 1`, the loop passes. -/
theorem checkLabels_complete {n : Nat} :
    ∀ (ls : List name.Label) (i : Nat),
      (∀ j, ∀ hj : j < ls.length,
        (ls.get ⟨j, hj⟩).length ≤ 63 ∧ (ls.get ⟨j, hj⟩ = [] → i + j = n - 1)) →
      name.checkLabels n i ls = none := by
  intro ls
  induction ls with
  | nil => intro i _; rfl
  | cons l rest ih =>
    intro i h
    obtain ⟨h63, hemp⟩ := h 0 (by simp)
    have h63l : l.length ≤ 63 := h63
    have hempl : l = [] → i + 0 = n - 1 := hemp
    have h1 : ¬ l.length > 63 := by omega
    have h2 : ¬ (l.length = 0 ∧ i ≠ n - 1) := by
      rintro ⟨he, hne⟩
      exact hne (by simpa using hempl (List.length_eq_zero.mp he))
    simp only [name.checkLabels]
    rw [if_neg h1, if_neg h2]
    apply ih (i + 1)
    intro j hj
    obtain ⟨ha, hb⟩ := h (j + 1) (by simpa using Nat.succ_lt_succ hj)
    exact ⟨ha, fun he => by have := hb he; omega⟩

/-- If the per-label loop fails with `LabelTooLong`, some label really is
longer than 63 octets. -/
theorem checkLabels_labelTooLong {n : Nat} :
    ∀ (ls : List name.Label) (i : Nat),
      name.checkLabels n i ls = some name.NameError.labelTooLong →
      ∃ l ∈ ls, 63 < l.length := by
  intro ls
  induction ls with
  | nil => intro i h; exact absurd h (by simp [name.checkLabels])
  | cons l rest ih =>
    intro i h
    by_cases h1 : l.length > 63
    · exact ⟨l, by simp, h1⟩
    · by_cases h2 : l.length = 0 ∧ i ≠ n - 1
      · simp [name.checkLabels, h1, h2] at h
      · simp only [name.checkLabels] at h
        rw [if_neg h1, if_neg h2] at h
        obtain ⟨l2, hl2, hh⟩ := ih (i + 1) h
        exact ⟨l2, by simp [hl2], hh⟩

/-- If the per-label loop fails with `EmptyLabel`, some label is empty at an
absolute index other than `n - 1`. -/
theorem checkLabels_emptyLabel {n : Nat} :
    ∀ (ls : List name.Label) (i : Nat),
      name.checkLabels n i ls = some name.NameError.emptyLabel →
      ∃ j, ∃ hj : j < ls.length, ls.get ⟨j, hj⟩ = [] ∧ i + j ≠ n - 1 := by
  intro ls
  induction ls with
  | nil => intro i h; exact absurd h (by simp [name.checkLabels])
  | cons l rest ih =>
    intro i h
    by_cases h1 : l.length > 63
    · simp [name.checkLabels, h1] at h
    · by_cases h2 : l.length = 0 ∧ i ≠ n - 1
      · exact ⟨0, by simp, List.length_eq_zero.mp h2.1, by have := h2.2; omega⟩
      · simp only [name.checkLabels] at h
        rw [if_neg h1, if_neg h2] at h
        obtain ⟨j, hj, hget, hne⟩ := ih (i + 1) h
        exact ⟨j + 1, by simpa using Nat.succ_lt_succ hj, hget, by omega⟩

/-- The hash of a name is a function of its ASCII-lowercased label
sequence. -/
theorem hashValue_folded (nm : name.Name) :
    name.Name.hashValue nm
      = (nm.labels.map (List.map name.lowerByte)).foldl
          (fun h l => l.foldl name.hashStep h) 0 := by
  rw [List.foldl_map]
  rfl

/-- C9: every successfully constructed `Name` satisfies the structural
invariants — each label at most 63 octets, total encoded length
(label length plus one prefix octet per label) at most 255, an empty label
only in final position; a label list satisfying the invariants constructs
successfully; each validation exception reports a genuinely violated
invariant (`NameTooLong` for total length, `LabelTooLong` for a long label,
`EmptyLabel` for a misplaced empty label); and hashing is case-insensitive
over ASCII: names whose label sequences agree after ASCII lowercasing hash
equal. -/
theorem C9_name_invariants_and_hash :
    (∀ (ls : List name.Label) (nm : name.Name), name.Name.mk? ls = Except.ok nm →
      (∀ l ∈ nm.labels, l.length ≤ 63) ∧
      (nm.labels.map (fun l => l.length + 1)).sum ≤ 255 ∧
      (∀ j, ∀ hj : j < nm.labels.length,
        nm.labels.get ⟨j, hj⟩ = [] → j = nm.labels.length - 1)) ∧
    (∀ ls : List name.Label,
      ((ls.map (fun l => l.length + 1)).sum > 255 →
        name.Name.mk? ls = Except.error name.NameError.nameTooLong) ∧
      (name.Name.mk? ls = Except.error name.NameError.labelTooLong →
        ∃ l ∈ ls, 63 < l.length) ∧
      (name.Name.mk? ls = Except.error name.NameError.emptyLabel →
        ∃ j, ∃ hj : j < ls.length, ls.get ⟨j, hj⟩ = [] ∧ j ≠ ls.length - 1) ∧
      ((∀ l ∈ ls, l.length ≤ 63) → (ls.map (fun l => l.length + 1)).sum ≤ 255 →
        (∀ j, ∀ hj : j < ls.length, ls.get ⟨j, hj⟩ = [] → j = ls.length - 1) →
        name.Name.mk? ls = Except.ok ⟨ls⟩)) ∧
    (∀ n1 n2 : name.Name,
      n1.labels.map (List.map name.lowerByte) = n2.labels.map (List.map name.lowerByte) →
      name.Name.hashValue n1 = name.Name.hashValue n2) := by
  refine ⟨?_, ?_, ?_⟩
  · intro ls nm h
    unfold name.Name.mk? at h
    cases hv : name._validate_labels ls with
    | some e => rw [hv] at h; cases h
    | none =>
      rw [hv] at h
      injection h with h2
      subst h2
      unfold name._validate_labels at hv
      by_cases hs : (ls.map (fun l => l.length + 1)).sum > 255
      · rw [if_pos hs] at hv
        exact Option.noConfusion hv
      · rw [if_neg hs] at hv
        refine ⟨?_, ?_, ?_⟩
        · show ∀ l ∈ ls, l.length ≤ 63
          intro l hl
          obtain ⟨⟨j, hj⟩, rfl⟩ := List.mem_iff_get.mp hl
          exact (checkLabels_ok ls 0 hv j hj).1
        · show (ls.map (fun l => l.length + 1)).sum ≤ 255
          omega
        · show ∀ j, ∀ hj : j < ls.length, ls.get ⟨j, hj⟩ = [] → j = ls.length - 1
          intro j hj he
          have := (checkLabels_ok ls 0 hv j hj).2 he
          omega
  · intro ls
    refine ⟨?_, ?_, ?_, ?_⟩
    · intro hs
      unfold name.Name.mk? name._validate_labels
      rw [if_pos hs]
    · intro h
      unfold name.Name.mk? name._validate_labels at h
      by_cases hs : (ls.map (fun l => l.length + 1)).sum > 255
      · rw [if_pos hs] at h
        have h2 : (Except.error name.NameError.nameTooLong : Except name.NameError name.Name)
            = Except.error name.NameError.labelTooLong := h
        injection h2 with he
        exact absurd he (by simp)
      · rw [if_neg hs] at h
        cases hc : name.checkLabels ls.length 0 ls with
        | none =>
          rw [hc] at h
          exact Except.noConfusion h
        | some e =>
          rw [hc] at h
          have h2 : (Except.error e : Except name.NameError name.Name)
              = Except.error name.NameError.labelTooLong := h
          injection h2 with he
          subst he
          exact checkLabels_labelTooLong ls 0 hc
    · intro h
      unfold name.Name.mk? name._validate_labels at h
      by_cases hs : (ls.map (fun l => l.length + 1)).sum > 255
      · rw [if_pos hs] at h
        have h2 : (Except.error name.NameError.nameTooLong : Except name.NameError name.Name)
            = Except.error name.NameError.emptyLabel := h
        injection h2 with he
        exact absurd he (by simp)
      · rw [if_neg hs] at h
        cases hc : name.checkLabels ls.length 0 ls with
        | none =>
          rw [hc] at h
          exact Except.noConfusion h
        | some e =>
          rw [hc] at h
          have h2 : (Except.error e : Except name.NameError name.Name)
              = Except.error name.NameError.emptyLabel := h
          injection h2 with he
          subst he
          obtain ⟨j, hj, hget, hne⟩ := checkLabels_emptyLabel ls 0 hc
          exact ⟨j, hj, hget, by omega⟩
    · intro h63 hsum hemp
      have hs : ¬ (ls.map (fun l => l.length + 1)).sum > 255 := by omega
      have hchk : name.checkLabels ls.length 0 ls = none := by
        apply checkLabels_complete
        intro j hj
        refine ⟨h63 _ (List.get_mem ls j hj), fun he => ?_⟩
        have := hemp j hj he
        omega
      unfold name.Name.mk? name._validate_labels
      rw [if_neg hs, hchk]
  · intro n1 n2 hmap
    rw [hashValue_folded, hashValue_folded, hmap]

/-- Witness for C9: `Name([b'w', b''])` constructs successfully, and the
names `A.` and `a.`-style label sequences hash identically. -/
theorem C9_witness :
    name.Name.mk? [[119], []] = Except.ok ⟨[[119], []]⟩ ∧
    name.Name.hashValue ⟨[[65]]⟩ = name.Name.hashValue ⟨[[97]]⟩ :=
  ⟨(C9_name_invariants_and_hash.2.1 [[119], []]).2.2.2 (by decide) (by decide) (by decide),
   C9_name_invariants_and_hash.2.2 ⟨[[65]]⟩ ⟨[[97]]⟩ (by decide)⟩

/-- C7: writing into a section numerically at least the current one succeeds
(skipping sections and re-entering the current section are allowed, and the
stored section becomes the requested one), while requesting a section below
the current one raises `FormError`, with no state change recorded. -/
theorem C7_renderer_section_order :
    ∀ (r : renderer.Renderer) (s : Nat),
      (r.sectionNum ≤ s →
        renderer._set_section r s = Except.ok { r with sectionNum := s }) ∧
      (s < r.sectionNum →
        renderer._set_section r s = Except.error renderer.FormError.formError) := by
  intro r s
  refine ⟨fun hle => ?_, fun hlt => ?_⟩
  · by_cases he : r.sectionNum = s
    · subst he
      simp [renderer._set_section]
    · have hlt : r.sectionNum < s := Nat.lt_of_le_of_ne hle he
      simp [renderer._set_section, he, hlt]
  · have hne : r.sectionNum ≠ s := by omega
    have hnlt : ¬ r.sectionNum < s := by omega
    simp [renderer._set_section, hne, hnlt]

/-- Witness for C7: from section ANSWER, moving to ADDITIONAL (skipping
AUTHORITY) succeeds, while moving back to QUESTION raises `FormError`. -/
theorem C7_witness :
    renderer._set_section
        { output := ⟨[], 0⟩, compress := [], sectionNum := 1, counts := [0, 0, 0, 0] } 3
      = Except.ok
        { output := ⟨[], 0⟩, compress := [], sectionNum := 3, counts := [0, 0, 0, 0] } ∧
    renderer._set_section
        { output := ⟨[], 0⟩, compress := [], sectionNum := 1, counts := [0, 0, 0, 0] } 0
      = Except.error renderer.FormError.formError :=
  ⟨(C7_renderer_section_order _ 3).1 (by decide),
   (C7_renderer_section_order _ 0).2 (by decide)⟩

/-- The rollback deletion loop keeps exactly the entries at offsets below
`w`, in order. -/
theorem delEntries_eq_filter (w : Nat) :
    ∀ l : List (name.Name × Nat),
      renderer.delEntries w l = l.filter (fun kv => decide (kv.2 < w)) := by
  intro l
  induction l with
  | nil => rfl
  | cons x rest ih =>
    rw [renderer.delEntries, List.filter_cons]
    by_cases hx : w ≤ x.2
    · have hd : ¬ decide (x.2 < w) = true := by simp; omega
      simp [hx, hd, ih]
    · have hd : decide (x.2 < w) = true := by simp; omega
      simp [hx, hd, ih]

/-- C8: after `_rollback(where)` with `where` not exceeding the buffer
length, the output buffer is the former buffer's prefix of length `where`,
and a compression-table entry survives exactly when it was present before
with offset below `where` (so entries at offsets `≥ where` are purged and
the rest kept unchanged). -/
theorem C8_renderer_rollback :
    ∀ (r : renderer.Renderer) (w : Nat), w ≤ r.output.buf.length →
      (renderer._rollback r w).output.buf = r.output.buf.take w ∧
      (renderer._rollback r w).output.buf.length = w ∧
      ∀ kv : name.Name × Nat,
        kv ∈ (renderer._rollback r w).compress ↔ kv ∈ r.compress ∧ kv.2 < w := by
  intro r w hw
  refine ⟨rfl, ?_, ?_⟩
  · show (r.output.buf.take w).length = w
    rw [List.length_take]
    exact Nat.min_eq_left hw
  · intro kv
    show kv ∈ renderer.delEntries w r.compress ↔ _
    rw [delEntries_eq_filter, List.mem_filter]
    simp

/-- Witness for C8: rolling a 3-byte buffer back to offset 1 keeps the
1-byte prefix, and the entry recorded at offset 2 is purged. -/
theorem C8_witness :
    (renderer._rollback
        { output := ⟨[7, 8, 9], 3⟩, compress := [(name.root, 0), (name.empty, 2)],
          sectionNum := 3, counts := [1, 1, 0, 0] } 1).output.buf
      = ([7, 8, 9] : List Nat).take 1 ∧
    ((name.empty, 2) ∈ (renderer._rollback
        { output := ⟨[7, 8, 9], 3⟩, compress := [(name.root, 0), (name.empty, 2)],
          sectionNum := 3, counts := [1, 1, 0, 0] } 1).compress
      ↔ ((name.empty, 2) ∈
          [(name.root, 0), (name.empty, (2 : Nat))] ∧ 2 < 1)) :=
  ⟨(C8_renderer_rollback _ 1 (by decide)).1,
   (C8_renderer_rollback _ 1 (by decide)).2.2 (name.empty, 2)⟩

/-- One first-match lookup step on a cons cell, by definitional unfolding. -/
theorem dictGet_cons (k k2 : resolver.CacheKey) (v2 : resolver.Answer)
    (rest : List (resolver.CacheKey × resolver.Answer)) :
    resolver.dictGet k ((k2, v2) :: rest)
      = if k2 = k then some v2 else resolver.dictGet k rest := rfl

/-- One insert step on a cons cell, by definitional unfolding. -/
theorem dictInsert_cons (k : resolver.CacheKey) (v : resolver.Answer)
    (k2 : resolver.CacheKey) (v2 : resolver.Answer)
    (rest : List (resolver.CacheKey × resolver.Answer)) :
    resolver.dictInsert k v ((k2, v2) :: rest)
      = if k2 = k then (k, v) :: rest else (k2, v2) :: resolver.dictInsert k v rest := rfl

/-- Looking up a key right after inserting it yields the inserted value. -/
theorem dictGet_insert (k : resolver.CacheKey) (v : resolver.Answer) :
    ∀ d, resolver.dictGet k (resolver.dictInsert k v d) = some v := by
  intro d
  induction d with
  | nil => simp [resolver.dictInsert, resolver.dictGet]
  | cons kv rest ih =>
    obtain ⟨k2, v2⟩ := kv
    by_cases hk : k2 = k
    · rw [dictInsert_cons, if_pos hk, dictGet_cons, if_pos rfl]
    · rw [dictInsert_cons, if_neg hk, dictGet_cons, if_neg hk]
      exact ih

/-- A key absent from the key list looks up to nothing. -/
theorem dictGet_eq_none_of_not_mem (k : resolver.CacheKey) :
    ∀ d : List (resolver.CacheKey × resolver.Answer),
      k ∉ d.map Prod.fst → resolver.dictGet k d = none := by
  intro d
  induction d with
  | nil => intro _; rfl
  | cons kv rest ih =>
    intro h
    obtain ⟨k2, v2⟩ := kv
    simp only [List.map_cons, List.mem_cons, not_or] at h
    rw [dictGet_cons, if_neg (fun he => h.1 he.symm)]
    exact ih h.2

/-- Filtering cannot make an absent key present. -/
theorem dictGet_filter_none (k : resolver.CacheKey)
    (p : resolver.CacheKey × resolver.Answer → Bool) :
    ∀ d, resolver.dictGet k d = none → resolver.dictGet k (d.filter p) = none := by
  intro d
  induction d with
  | nil => intro _; rfl
  | cons kv rest ih =>
    intro h
    obtain ⟨k2, v2⟩ := kv
    rw [dictGet_cons] at h
    by_cases hk : k2 = k
    · rw [if_pos hk] at h
      exact Option.noConfusion h
    · rw [if_neg hk] at h
      rw [List.filter_cons]
      by_cases hp : p (k2, v2)
      · simp only [hp, if_true]
        rw [dictGet_cons, if_neg hk]
        exact ih h
      · simp only [hp, if_false]
        exact ih h

/-- With unique keys, looking a key up in the filtered result of inserting
it is governed solely by the predicate's verdict on the inserted pair. -/
theorem dictGet_filter_insert (k : resolver.CacheKey) (v : resolver.Answer)
    (p : resolver.CacheKey × resolver.Answer → Bool) :
    ∀ d, (d.map Prod.fst).Nodup →
      resolver.dictGet k ((resolver.dictInsert k v d).filter p)
        = if p (k, v) then some v else none := by
  intro d
  induction d with
  | nil =>
    intro _
    rw [show resolver.dictInsert k v [] = [(k, v)] from rfl, List.filter_cons]
    by_cases hp : p (k, v) = true
    · rw [if_pos hp, if_pos hp, dictGet_cons, if_pos rfl]
    · rw [if_neg hp, if_neg hp]
      rfl
  | cons kv rest ih =>
    intro hnd
    obtain ⟨k2, v2⟩ := kv
    simp only [List.map_cons, List.nodup_cons] at hnd
    obtain ⟨hnotin, hndrest⟩ := hnd
    by_cases hk : k2 = k
    · rw [dictInsert_cons, if_pos hk, List.filter_cons]
      by_cases hp : p (k, v) = true
      · rw [if_pos hp, if_pos hp, dictGet_cons, if_pos rfl]
      · rw [if_neg hp, if_neg hp]
        subst hk
        exact dictGet_filter_none k2 p rest (dictGet_eq_none_of_not_mem k2 rest hnotin)
    · rw [dictInsert_cons, if_neg hk, List.filter_cons]
      by_cases hp2 : p (k2, v2) = true
      · rw [if_pos hp2, dictGet_cons, if_neg hk]
        exact ih hndrest
      · rw [if_neg hp2]
        exact ih hndrest

/-- The periodic sweep never touches the statistics. -/
theorem maybeClean_stats (c : resolver.Cache) (t : Nat) :
    (resolver.Cache._maybe_clean c t).statistics = c.statistics := by
  by_cases hcl : c.next_cleaning ≤ t <;> simp [resolver.Cache._maybe_clean, hcl]

/-- The periodic sweep either leaves the data untouched or filters out the
entries that have expired by `t`. -/
theorem maybeClean_data (c : resolver.Cache) (t : Nat) :
    (resolver.Cache._maybe_clean c t).data = c.data ∨
    (resolver.Cache._maybe_clean c t).data
      = c.data.filter (fun kv => decide (t < kv.2.expiration)) := by
  by_cases hcl : c.next_cleaning ≤ t
  · exact Or.inr (by simp [resolver.Cache._maybe_clean, hcl])
  · exact Or.inl (by simp [resolver.Cache._maybe_clean, hcl])

/-- Filtering preserves key uniqueness. -/
theorem keysNodup_filter (p : resolver.CacheKey × resolver.Answer → Bool)
    (d : List (resolver.CacheKey × resolver.Answer))
    (h : (d.map Prod.fst).Nodup) : ((d.filter p).map Prod.fst).Nodup := by
  have hs : List.Sublist ((d.filter p).map Prod.fst) (d.map Prod.fst) :=
    List.Sublist.map Prod.fst (List.filter_sublist d)
  exact List.Nodup.sublist hs h

/-- The periodic sweep preserves key uniqueness. -/
theorem maybeClean_keysNodup (c : resolver.Cache) (t : Nat)
    (h : (c.data.map Prod.fst).Nodup) :
    ((resolver.Cache._maybe_clean c t).data.map Prod.fst).Nodup := by
  rcases maybeClean_data c t with hd | hd
  · rw [hd]; exact h
  · rw [hd]; exact keysNodup_filter _ _ h

/-- `getAfterClean` on a present, unexpired entry: hit. -/
theorem getAfterClean_of_some_fresh (c2 : resolver.Cache) (k : resolver.CacheKey)
    (now : Nat) (a : resolver.Answer) (h : resolver.dictGet k c2.data = some a)
    (hexp : now < a.expiration) :
    resolver.Cache.getAfterClean c2 k now
      = (some a, { c2 with statistics :=
          { c2.statistics with hits := c2.statistics.hits + 1 } }) := by
  simp [resolver.Cache.getAfterClean, h, hexp]

/-- `getAfterClean` on a present but expired entry: miss. -/
theorem getAfterClean_of_some_stale (c2 : resolver.Cache) (k : resolver.CacheKey)
    (now : Nat) (a : resolver.Answer) (h : resolver.dictGet k c2.data = some a)
    (hexp : a.expiration ≤ now) :
    resolver.Cache.getAfterClean c2 k now
      = (none, { c2 with statistics :=
          { c2.statistics with misses := c2.statistics.misses + 1 } }) := by
  simp [resolver.Cache.getAfterClean, h, show ¬ now < a.expiration by omega]

/-- `getAfterClean` on an absent key: miss, no exception. -/
theorem getAfterClean_of_none (c2 : resolver.Cache) (k : resolver.CacheKey)
    (now : Nat) (h : resolver.dictGet k c2.data = none) :
    resolver.Cache.getAfterClean c2 k now
      = (none, { c2 with statistics :=
          { c2.statistics with misses := c2.statistics.misses + 1 } }) := by
  simp [resolver.Cache.getAfterClean, h]

/-- C5: on the simple cache with unique keys, after `put k a`, a `get k`
strictly before `a.expiration` returns `a` and increments the hit counter; a
`get k` at or after `a.expiration` returns nothing and increments the miss
counter; and a `get` of an absent key returns nothing and counts a miss
rather than raising. -/
theorem C5_cache_ttl :
    (∀ (c : resolver.Cache) (k : resolver.CacheKey) (a : resolver.Answer) (t0 t : Nat),
      (c.data.map Prod.fst).Nodup →
      (t < a.expiration →
        (resolver.Cache.get (resolver.Cache.put c k a t0) k t).1 = some a ∧
        (resolver.Cache.get (resolver.Cache.put c k a t0) k t).2.statistics.hits
          = (resolver.Cache.put c k a t0).statistics.hits + 1) ∧
      (a.expiration ≤ t →
        (resolver.Cache.get (resolver.Cache.put c k a t0) k t).1 = none ∧
        (resolver.Cache.get (resolver.Cache.put c k a t0) k t).2.statistics.misses
          = (resolver.Cache.put c k a t0).statistics.misses + 1)) ∧
    (∀ (c : resolver.Cache) (k : resolver.CacheKey) (t : Nat),
      resolver.dictGet k c.data = none →
      (resolver.Cache.get c k t).1 = none ∧
      (resolver.Cache.get c k t).2.statistics.misses = c.statistics.misses + 1) := by
  constructor
  · intro c k a t0 t hnd
    have hnd1 : (((resolver.Cache._maybe_clean c t0)).data.map Prod.fst).Nodup :=
      maybeClean_keysNodup c t0 hnd
    have hcpdata : (resolver.Cache.put c k a t0).data
        = resolver.dictInsert k a ((resolver.Cache._maybe_clean c t0)).data := rfl
    refine ⟨fun ht => ?_, fun ht => ?_⟩
    · have hget : resolver.dictGet k
          ((resolver.Cache._maybe_clean (resolver.Cache.put c k a t0) t)).data = some a := by
        rcases maybeClean_data (resolver.Cache.put c k a t0) t with hd | hd
        · rw [hd, hcpdata]
          exact dictGet_insert k a _
        · rw [hd, hcpdata, dictGet_filter_insert k a _ _ hnd1]
          simp [ht]
      have heq := getAfterClean_of_some_fresh _ k t a hget ht
      constructor
      · show (resolver.Cache.getAfterClean
            (resolver.Cache._maybe_clean (resolver.Cache.put c k a t0) t) k t).1 = some a
        rw [heq]
      · show (resolver.Cache.getAfterClean
            (resolver.Cache._maybe_clean (resolver.Cache.put c k a t0) t) k t).2.statistics.hits
          = (resolver.Cache.put c k a t0).statistics.hits + 1
        rw [heq]
        simp [maybeClean_stats]
    · have hmiss : resolver.Cache.getAfterClean
          (resolver.Cache._maybe_clean (resolver.Cache.put c k a t0) t) k t
        = (none, { resolver.Cache._maybe_clean (resolver.Cache.put c k a t0) t with
            statistics := { (resolver.Cache._maybe_clean (resolver.Cache.put c k a t0) t).statistics with
              misses := (resolver.Cache._maybe_clean (resolver.Cache.put c k a t0) t).statistics.misses + 1 } }) := by
        rcases maybeClean_data (resolver.Cache.put c k a t0) t with hd | hd
        · have hget : resolver.dictGet k
              ((resolver.Cache._maybe_clean (resolver.Cache.put c k a t0) t)).data = some a := by
            rw [hd, hcpdata]
            exact dictGet_insert k a _
          exact getAfterClean_of_some_stale _ k t a hget ht
        · have hget : resolver.dictGet k
              ((resolver.Cache._maybe_clean (resolver.Cache.put c k a t0) t)).data = none := by
            rw [hd, hcpdata, dictGet_filter_insert k a _ _ hnd1]
            simp [show ¬ t < a.expiration by omega]
          exact getAfterClean_of_none _ k t hget
      constructor
      · show (resolver.Cache.getAfterClean
            (resolver.Cache._maybe_clean (resolver.Cache.put c k a t0) t) k t).1 = none
        rw [hmiss]
      · show (resolver.Cache.getAfterClean
            (resolver.Cache._maybe_clean (resolver.Cache.put c k a t0) t) k t).2.statistics.misses
          = (resolver.Cache.put c k a t0).statistics.misses + 1
        rw [hmiss]
        simp [maybeClean_stats]
  · intro c k t h
    have hget : resolver.dictGet k ((resolver.Cache._maybe_clean c t)).data = none := by
      rcases maybeClean_data c t with hd | hd
      · rw [hd]; exact h
      · rw [hd]; exact dictGet_filter_none k _ c.data h
    have heq := getAfterClean_of_none (resolver.Cache._maybe_clean c t) k t hget
    constructor
    · show (resolver.Cache.getAfterClean (resolver.Cache._maybe_clean c t) k t).1 = none
      rw [heq]
    · show (resolver.Cache.getAfterClean
          (resolver.Cache._maybe_clean c t) k t).2.statistics.misses
        = c.statistics.misses + 1
      rw [heq]
      simp [maybeClean_stats]

/-- Witness for C5: a fresh get returns the stored answer, a stale get and a
missing-key get return nothing. -/
theorem C5_witness :
    (resolver.Cache.get (resolver.Cache.put
        { data := [], cleaning_interval := 300, next_cleaning := 300, statistics := ⟨0, 0⟩ }
        1 { expiration := 10, payload := 42 } 0) 1 5).1
      = some { expiration := 10, payload := 42 } ∧
    (resolver.Cache.get (resolver.Cache.put
        { data := [], cleaning_interval := 300, next_cleaning := 300, statistics := ⟨0, 0⟩ }
        1 { expiration := 10, payload := 42 } 0) 1 12).1
      = none ∧
    (resolver.Cache.get
        { data := [], cleaning_interval := 300, next_cleaning := 300, statistics := ⟨0, 0⟩ }
        7 0).1 = none :=
  ⟨((C5_cache_ttl.1
      { data := [], cleaning_interval := 300, next_cleaning := 300, statistics := ⟨0, 0⟩ }
      1 { expiration := 10, payload := 42 } 0 5 (by decide)).1 (by decide)).1,
   ((C5_cache_ttl.1
      { data := [], cleaning_interval := 300, next_cleaning := 300, statistics := ⟨0, 0⟩ }
      1 { expiration := 10, payload := 42 } 0 12 (by decide)).2 (by decide)).1,
   (C5_cache_ttl.2
      { data := [], cleaning_interval := 300, next_cleaning := 300, statistics := ⟨0, 0⟩ }
      7 0 rfl).1⟩

/-- Reading the per-key hit counter through a located node. -/
theorem get_hits_eq (c : resolver.LRUCache) (k : resolver.CacheKey)
    (node : resolver.LRUCacheNode) (h : resolver.findNode c.nodes k = some node) :
    resolver.LRUCache.get_hits_for_key c k = node.hits := by
  unfold resolver.LRUCache.get_hits_for_key
  rw [h]

/-- A node moved to the front is what a subsequent lookup of its key
finds. -/
theorem findNode_moveToFront (nodes : List resolver.LRUCacheNode)
    (node : resolver.LRUCacheNode) (k : resolver.CacheKey) (h : node.key = k) :
    resolver.findNode (resolver.moveToFront nodes node) k = some node := by
  unfold resolver.moveToFront resolver.findNode
  simp [List.find?, h]

/-- C10: `LRUCache.put` on a key that is already present replaces the stored
value, moves the node to the front, and also increments that node's
per-entry hit counter — so `get_hits_for_key` counts replacing puts as well
as successful gets (a fresh get also increments it). -/
theorem C10_lru_put_increments_hits :
    ∀ (c : resolver.LRUCache) (k : resolver.CacheKey) (v : resolver.Answer)
      (node : resolver.LRUCacheNode),
      resolver.findNode c.nodes k = some node →
      resolver.LRUCache.get_hits_for_key (resolver.LRUCache.put c k v) k
          = resolver.LRUCache.get_hits_for_key c k + 1 ∧
      (resolver.LRUCache.put c k v).nodes.head?
          = some { node with value := v, hits := node.hits + 1 } ∧
      (∀ now, now < node.value.expiration →
        resolver.LRUCache.get_hits_for_key ((resolver.LRUCache.get c k now).2) k
            = resolver.LRUCache.get_hits_for_key c k + 1) := by
  intro c k v node hfind
  have hfind2 : List.find? (fun n => decide (n.key = k)) c.nodes = some node := hfind
  have hkey : node.key = k := by simpa using List.find?_some hfind2
  have hput : (resolver.LRUCache.put c k v).nodes
      = resolver.moveToFront c.nodes { node with value := v, hits := node.hits + 1 } := by
    unfold resolver.LRUCache.put
    rw [hfind]
  have hbefore := get_hits_eq c k node hfind
  refine ⟨?_, ?_, ?_⟩
  · have h2 : resolver.findNode (resolver.LRUCache.put c k v).nodes k
        = some { node with value := v, hits := node.hits + 1 } := by
      rw [hput]
      exact findNode_moveToFront c.nodes _ k hkey
    rw [get_hits_eq _ k _ h2, hbefore]
  · rw [hput]
    rfl
  · intro now hnow
    have hget : (resolver.LRUCache.get c k now).2.nodes
        = resolver.moveToFront c.nodes { node with hits := node.hits + 1 } := by
      unfold resolver.LRUCache.get
      rw [hfind]
      simp [show ¬ node.value.expiration ≤ now from by omega]
    have h2 : resolver.findNode ((resolver.LRUCache.get c k now).2).nodes k
        = some { node with hits := node.hits + 1 } := by
      rw [hget]
      exact findNode_moveToFront c.nodes _ k hkey
    rw [get_hits_eq _ k _ h2, hbefore]

/-- Witness for C10: a replacing put on a present key bumps the hit count
from 4 to 5. -/
theorem C10_witness :
    resolver.LRUCache.get_hits_for_key
        (resolver.LRUCache.put
          { nodes := [{ key := 1, value := { expiration := 10, payload := 5 }, hits := 4 }],
            max_size := 2, statistics := ⟨0, 0⟩ }
          1 { expiration := 20, payload := 6 }) 1
      = resolver.LRUCache.get_hits_for_key
          { nodes := [{ key := 1, value := { expiration := 10, payload := 5 }, hits := 4 }],
            max_size := 2, statistics := ⟨0, 0⟩ } 1 + 1 :=
  (C10_lru_put_increments_hits
    { nodes := [{ key := 1, value := { expiration := 10, payload := 5 }, hits := 4 }],
      max_size := 2, statistics := ⟨0, 0⟩ }
    1 { expiration := 20, payload := 6 }
    { key := 1, value := { expiration := 10, payload := 5 }, hits := 4 } rfl).1

/-- C6: for an IXFR `Inbound` with base serial `s`, if the first RR of the
first processed message is an SOA whose serial is at most `s` in RFC 1982
serial arithmetic, then `process_message` returns `True` on that first call
with the `done` flag set and with no commit issued to the transaction. -/
theorem C6_ixfr_nochange :
    ∀ (s : Nat) (rr : xfr.RRset) (rest : List xfr.RRset),
      rr.rdtype = xfr.SOA → xfr.serialLe rr.serial s = true →
      xfr.Inbound.process_message (xfr.Inbound.init s) (rr :: rest)
        = ({ serial := s, soa_rdataset := some rr, done := true,
             delete_mode := false, txnOpen := true, txnOps := [] }, true) ∧
      xfr.TxnOp.commit ∉
        (xfr.Inbound.process_message (xfr.Inbound.init s) (rr :: rest)).1.txnOps := by
  intro s rr rest hsoa hle
  have heq : xfr.Inbound.process_message (xfr.Inbound.init s) (rr :: rest)
      = ({ serial := s, soa_rdataset := some rr, done := true,
           delete_mode := false, txnOpen := true, txnOps := [] }, true) := by
    show xfr.processIxfrLoop
        { serial := s, soa_rdataset := none, done := false, delete_mode := false,
          txnOpen := true, txnOps := [] } (rr :: rest) = _
    simp only [xfr.processIxfrLoop]
    rw [if_pos hsoa]
    show (if xfr.serialLe rr.serial s = true then _ else _) = _
    rw [if_pos hle]
  exact ⟨heq, by rw [heq]; simp⟩

/-- Witness for C6: base serial 100, opening SOA serial 100 — done on the
first call, nothing committed. -/
theorem C6_witness :
    xfr.Inbound.process_message (xfr.Inbound.init 100)
        [{ rdtype := 6, serial := 100, rid := 0 }]
      = ({ serial := 100, soa_rdataset := some { rdtype := 6, serial := 100, rid := 0 },
           done := true, delete_mode := false, txnOpen := true, txnOps := [] }, true) :=
  (C6_ixfr_nochange 100 { rdtype := 6, serial := 100, rid := 0 } [] rfl (by decide)).1

/-- C1: against a black-hole server — every try block raising a per-call
timeout — the inner server loop of `Resolver.resolve` never raises
`LifetimeTimeout` and never exits: whatever iteration budget it is given it
runs out, each iteration's `continue` having skipped the elapsed-time check,
while the error trace grows by one `timed out` entry per iteration.  The
claim that the elapsed-time check runs on every iteration (so that resolve
terminates with `LifetimeTimeout`) fails on this code. -/
theorem C1_blackhole_never_raises_lifetime :
    ∀ (tr : resolver.Trace) (rotate : Bool) (lifetime fuel i : Nat)
      (nss : List Nat) (errors : List resolver.ErrEntry),
      (∀ j, tr.result j = resolver.TryResult.timeout) →
      ∃ errs, resolver.innerLoop tr rotate lifetime fuel i nss errors
            = resolver.InnerResult.fuelOut errs
          ∧ errs.length = errors.length + fuel := by
  intro tr rotate lifetime fuel
  induction fuel with
  | zero =>
    intro i nss errors _
    exact ⟨errors, rfl, rfl⟩
  | succ fuel ih =>
    intro i nss errors h
    obtain ⟨errs, he, hlen⟩ := ih (i + 1) (resolver.nextNameserver rotate nss).2
      (errors ++ [resolver.ErrEntry.timedOut (resolver.nextNameserver rotate nss).1]) h
    have hstep : resolver.innerLoop tr rotate lifetime (fuel + 1) i nss errors
        = resolver.innerLoop tr rotate lifetime fuel (i + 1)
            (resolver.nextNameserver rotate nss).2
            (errors ++ [resolver.ErrEntry.timedOut (resolver.nextNameserver rotate nss).1]) := by
      simp only [resolver.innerLoop]
      rw [h i]
    refine ⟨errs, hstep.trans he, ?_⟩
    simp only [List.length_append, List.length_singleton] at hlen
    omega

/-- Witness for C1: a concrete black-hole trace with a budget of 3
iterations exhausts its fuel with 3 recorded timeouts. -/
theorem C1_witness :
    ∃ errs, resolver.innerLoop
          { result := fun _ => resolver.TryResult.timeout, elapsed := fun _ => 0 }
          false 5 3 0 [1] []
        = resolver.InnerResult.fuelOut errs
      ∧ errs.length = ([] : List resolver.ErrEntry).length + 3 :=
  C1_blackhole_never_raises_lifetime
    { result := fun _ => resolver.TryResult.timeout, elapsed := fun _ => 0 }
    false 5 3 0 [1] [] (fun _ => rfl)

/-- C2: the claim asserts that with a search list yielding two candidates
that both draw NXDOMAIN from the server, the raised NXDOMAIN carries both
candidate names in `qnames()` and maps each to its response.  The code
violates this: the final exception is raised with the by-then emptied
working list `resolution.qnames` (so `qnames()` is empty, not of size k),
and each response was recorded under the never-reassigned
`resolution.qname = dns.name.empty` instead of the candidate that was
queried. -/
theorem C2_nxdomain_aggregation_bug :
    resolver.resolveLoop
        { result := fun _ => resolver.TryResult.response 3 7, elapsed := fun _ => 0 }
        false 5 (fun _ => none) 1 3 0 [1] []
        (resolver.Resolution.init [⟨[[97], []]⟩, ⟨[[98], []]⟩])
      = resolver.ResolveResult.nxdomain [] [(name.empty, 7)] ∧
    (resolver.Resolution.init [⟨[[97], []]⟩, ⟨[[98], []]⟩]).qnames_to_try.length = 2 := by
  exact ⟨rfl, rfl⟩
